import Mathlib

/-! Verification of the wc text-statistics tool (src/main.rs).

Shallow embedding: strings are modelled as lists of Unicode scalar values
(`List Char`); the byte length of a string is the sum of the UTF-8 encoding
sizes of its characters, matching Rust's `str::len`.  The counting functions
(`str::lines`, `str::split_whitespace`, `str::chars`) are translated from
their Rust standard-library semantics; the option parser, counter and
reporter are translated from the corresponding functions of src/main.rs,
with process-terminating events (exit on `--help` or a parse error, panics)
made explicit as `Except` error values.  File-system access is modelled by
an oracle mapping a file name to the outcome of opening and reading it. -/

deriving instance DecidableEq for Except

/-- Unicode White_Space property, as used by Rust's `char::is_whitespace`
(the separator used by `str::split_whitespace`). -/
def rustIsWhitespace (c : Char) : Bool :=
  decide ((0x09 ≤ c.toNat ∧ c.toNat ≤ 0x0D) ∨ c.toNat = 0x20 ∨ c.toNat = 0x85 ∨
    c.toNat = 0xA0 ∨ c.toNat = 0x1680 ∨ (0x2000 ≤ c.toNat ∧ c.toNat ≤ 0x200A) ∨
    c.toNat = 0x2028 ∨ c.toNat = 0x2029 ∨ c.toNat = 0x202F ∨ c.toNat = 0x205F ∨
    c.toNat = 0x3000)

/-- Number of bytes of the UTF-8 encoding of a Unicode scalar value. -/
def utf8CharSize (c : Char) : Nat :=
  if c.toNat < 0x80 then 1
  else if c.toNat < 0x800 then 2
  else if c.toNat < 0x10000 then 3
  else 4

/-- Byte length of a string in UTF-8, i.e. Rust's `str::len` as used by
`WordCount::parse` for the byte count. -/
def utf8Len (s : List Char) : Nat := (s.map utf8CharSize).sum

/-- Rust's `char::is_ascii`: code point at most 0x7F. -/
def isAsciiChar (c : Char) : Bool := decide (c.toNat < 0x80)

/-- Remove one trailing carriage return, as `str::lines` does on each
segment that ended in a line feed. -/
def stripCR (l : List Char) : List Char :=
  if l.getLast? = some '\r' then l.dropLast else l

/-- Accumulator pass for `str::lines`: `cur` holds the characters of the
current (unterminated) line in reverse.  At a line feed the current line is
emitted (with a trailing carriage return removed); a final unterminated
nonempty segment is emitted as-is; a trailing line feed produces no extra
empty segment. -/
def linesAux (cur : List Char) : List Char → List (List Char)
  | [] => if cur.isEmpty then [] else [cur.reverse]
  | c :: rest =>
    if c = '\n' then stripCR cur.reverse :: linesAux [] rest
    else linesAux (c :: cur) rest

/-- Rust's `str::lines` on the input, translated for `input.lines()` in
`WordCount::parse`. -/
def rustLines (s : List Char) : List (List Char) := linesAux [] s

/-- The line count of `WordCount::parse`: `input.lines().count()`. -/
def lineCount (s : List Char) : Nat := (rustLines s).length

lemma linesAux_cons (cur : List Char) (c : Char) (rest : List Char) :
    linesAux cur (c :: rest) =
      if c = '\n' then stripCR cur.reverse :: linesAux [] rest
      else linesAux (c :: cur) rest := rfl

lemma linesAux_length (s : List Char) : ∀ cur : List Char,
    (linesAux cur s).length =
      s.count '\n' +
        (if s.getLast? = some '\n' then 0 else if s = [] ∧ cur = [] then 0 else 1) := by
  induction s with
  | nil =>
    intro cur
    cases cur <;> simp [linesAux]
  | cons c rest ih =>
    intro cur
    rcases rest with _ | ⟨d, rest'⟩
    · by_cases hc : c = '\n' <;>
        simp [linesAux, hc, List.count_cons]
    · by_cases hc : c = '\n'
      · subst hc
        rw [linesAux_cons, if_pos rfl, List.length_cons, ih []]
        by_cases he : (d :: rest').getLast? = some '\n' <;>
          simp [List.count_cons, List.getLast?_cons_cons, he]
      · rw [linesAux_cons, if_neg hc, ih (c :: cur)]
        by_cases he : (d :: rest').getLast? = some '\n' <;>
          simp [List.count_cons, List.getLast?_cons_cons, he, hc, Ne.symm hc]

/-- C1: the line count equals the number of segments obtained by splitting on
line terminators where a trailing terminator adds no empty segment: with `N`
line feeds and no trailing line feed the count is `N + 1` (for `N > 0`), with
a trailing line feed it is `N`, and the empty string counts `0`. -/
theorem C1_line_count (s : List Char) (N : Nat) (hN : s.count '\n' = N) :
    (0 < N ∧ s.getLast? ≠ some '\n' → lineCount s = N + 1) ∧
    (s.getLast? = some '\n' → lineCount s = N) ∧
    (s = [] → lineCount s = 0) := by
  have h := linesAux_length s []
  rw [hN] at h
  refine ⟨?_, ?_, ?_⟩
  · rintro ⟨hpos, hne⟩
    have hs : s ≠ [] := by
      rintro rfl
      rw [List.count_nil] at hN
      omega
    unfold lineCount rustLines
    rw [h, if_neg hne, if_neg (by simp [hs])]
  · intro hend
    unfold lineCount rustLines
    rw [h, if_pos hend, Nat.add_zero]
  · rintro rfl
    rfl

/-- Witness for C1 at the concrete input "a\nb": one line feed, no trailing
line feed, so two lines. -/
theorem C1_line_count_witness : lineCount "a\nb".data = 2 := by
  have h := C1_line_count "a\nb".data 1 (by decide)
  exact h.1 ⟨by decide, by decide⟩

/-- Accumulator pass for `str::split_whitespace`: `cur` holds the current
word in reverse; whitespace ends the current word (empty segments are
discarded), and a final nonempty word is emitted at the end of input. -/
def splitWSAux (cur : List Char) : List Char → List (List Char)
  | [] => if cur.isEmpty then [] else [cur.reverse]
  | c :: rest =>
    if rustIsWhitespace c then
      if cur.isEmpty then splitWSAux [] rest else cur.reverse :: splitWSAux [] rest
    else splitWSAux (c :: cur) rest

/-- Rust's `str::split_whitespace`, translated for
`input.split_whitespace()` in `WordCount::parse`. -/
def splitWhitespace (s : List Char) : List (List Char) := splitWSAux [] s

/-- The word count of `WordCount::parse`: `input.split_whitespace().count()`. -/
def wordCount (s : List Char) : Nat := (splitWhitespace s).length

/-- Word-counting automaton: `prevWs` records whether the previous character
was whitespace (true at the start of input); a word is counted at each
whitespace-to-nonwhitespace transition. -/
def wcAux (prevWs : Bool) : List Char → Nat
  | [] => 0
  | c :: rest =>
    if rustIsWhitespace c then wcAux true rest
    else (if prevWs then 1 else 0) + wcAux false rest

lemma splitWSAux_length (s : List Char) : ∀ cur : List Char,
    (splitWSAux cur s).length = (if cur.isEmpty then 0 else 1) + wcAux cur.isEmpty s := by
  induction s with
  | nil =>
    intro cur
    cases cur <;> simp [splitWSAux, wcAux]
  | cons c rest ih =>
    intro cur
    by_cases hc : rustIsWhitespace c
    · rcases cur with _ | ⟨d, cur'⟩
      · simp [splitWSAux, wcAux, hc, ih []]
      · simp [splitWSAux, wcAux, hc, ih [], Nat.add_comm]
    · rcases cur with _ | ⟨d, cur'⟩ <;>
        simp [splitWSAux, wcAux, hc, ih (c :: _)]

lemma wordCount_eq_wcAux (s : List Char) : wordCount s = wcAux true s := by
  have h := splitWSAux_length s []
  simpa [wordCount, splitWhitespace] using h

/-- State of the word-counting automaton after reading `l` from state `p`:
whether the last character read so far is whitespace. -/
def wsState (p : Bool) (l : List Char) : Bool :=
  l.foldl (fun _ c => rustIsWhitespace c) p

lemma wsState_nil (p : Bool) : wsState p [] = p := rfl

lemma wsState_cons (p : Bool) (c : Char) (l : List Char) :
    wsState p (c :: l) = wsState (rustIsWhitespace c) l := rfl

lemma wcAux_append (a : List Char) : ∀ (b : List Char) (p : Bool),
    wcAux p (a ++ b) = wcAux p a + wcAux (wsState p a) b := by
  induction a with
  | nil => intro b p; simp [wcAux, wsState_nil]
  | cons c a' ih =>
    intro b p
    by_cases hc : rustIsWhitespace c <;>
      simp [wcAux, hc, wsState_cons, ih, Nat.add_assoc]

lemma wcAux_allWs {w : List Char} (hw : ∀ c ∈ w, rustIsWhitespace c = true) :
    ∀ p, wcAux p w = 0 := by
  induction w with
  | nil => intro p; rfl
  | cons c w' ih =>
    intro p
    have hc := hw c (by simp)
    simp only [wcAux, hc, if_pos]
    exact ih (fun d hd => hw d (by simp [hd])) true

lemma wsState_allWs {w : List Char} (hne : w ≠ [])
    (hw : ∀ c ∈ w, rustIsWhitespace c = true) : ∀ p, wsState p w = true := by
  induction w with
  | nil => exact absurd rfl hne
  | cons c w' ih =>
    intro p
    rw [wsState_cons]
    rcases w' with _ | ⟨d, w''⟩
    · rw [wsState_nil]
      exact hw c (by simp)
    · exact ih (by simp) (fun d hd => hw d (by simp [hd])) _

/-- Whether a string ends in a non-whitespace character. -/
def endsNonWs (l : List Char) : Bool :=
  match l.getLast? with
  | some c => !rustIsWhitespace c
  | none => false

/-- Whether a string starts with a non-whitespace character. -/
def startsNonWs (l : List Char) : Bool :=
  match l.head? with
  | some c => !rustIsWhitespace c
  | none => false

lemma wsState_getLast_some {a : List Char} {c : Char} (h : a.getLast? = some c) :
    ∀ p : Bool, wsState p a = rustIsWhitespace c := by
  induction a with
  | nil => simp at h
  | cons d a' ih =>
    intro p
    rw [wsState_cons]
    rcases a' with _ | ⟨e, a''⟩
    · simp at h
      rw [h, wsState_nil]
    · rw [List.getLast?_cons_cons] at h
      exact ih h _

lemma wcAux_state_irrel {b : List Char} (hb : startsNonWs b = false) (p q : Bool) :
    wcAux p b = wcAux q b := by
  rcases b with _ | ⟨d, b'⟩
  · rfl
  · have hd : rustIsWhitespace d = true := by
      by_contra hcon
      have hT : startsNonWs (d :: b') = true := by
        simp only [startsNonWs, List.head?_cons]
        simpa using hcon
      rw [hT] at hb
      exact absurd hb (by simp)
    simp [wcAux, hd]

/-- The index-based reading of the specification: position `i` starts a
maximal run of non-whitespace characters when it holds a non-whitespace
character and is either the first position or preceded by whitespace. -/
def wordStartAt (s : List Char) (i : Nat) : Bool :=
  !rustIsWhitespace (s.getD i ' ') && (i == 0 || rustIsWhitespace (s.getD (i - 1) ' '))

/-- Spec-side definition (the claim's words): the number of maximal runs of
non-whitespace characters of the input. -/
def specMaximalRuns (s : List Char) : Nat :=
  ((List.range s.length).filter (wordStartAt s)).length

/-- Generalisation of `wordStartAt` over the state before the string. -/
def startFromAt (p : Bool) (s : List Char) (i : Nat) : Bool :=
  !rustIsWhitespace (s.getD i ' ') &&
    (if i == 0 then p else rustIsWhitespace (s.getD (i - 1) ' '))

lemma filter_map_succ_length (q : Nat → Bool) (l : List Nat) :
    ((l.map Nat.succ).filter q).length = (l.filter (fun j => q (j + 1))).length := by
  induction l with
  | nil => rfl
  | cons a l' ih =>
    by_cases ha : q (a + 1) <;> simp [List.filter_cons, Nat.succ_eq_add_one, ha, ih]

lemma startFromAt_count (s : List Char) : ∀ p : Bool,
    ((List.range s.length).filter (startFromAt p s)).length = wcAux p s := by
  induction s with
  | nil => intro p; rfl
  | cons c cs ih =>
    intro p
    have hshift : (fun j => startFromAt p (c :: cs) (j + 1)) =
        startFromAt (rustIsWhitespace c) cs := by
      funext j
      rcases j with _ | k <;>
        simp [startFromAt, List.getD_cons_succ, List.getD_cons_zero]
    rw [List.length_cons, List.range_succ_eq_map, List.filter_cons]
    by_cases hc : rustIsWhitespace c
    · have h0 : startFromAt p (c :: cs) 0 = false := by
        simp [startFromAt, hc]
      rw [h0, if_neg Bool.false_ne_true, filter_map_succ_length, hshift, ih, hc]
      simp [wcAux, hc]
    · have hcb : rustIsWhitespace c = false := by simpa using hc
      have h0 : startFromAt p (c :: cs) 0 = p := by
        simp [startFromAt, hcb]
      rw [h0]
      rcases p with _ | _
      · rw [if_neg Bool.false_ne_true, filter_map_succ_length, hshift, ih, hcb]
        simp [wcAux, hcb]
      · rw [if_pos rfl, List.length_cons, filter_map_succ_length, hshift, ih, hcb]
        simp [wcAux, hcb, Nat.add_comm]

lemma specMaximalRuns_eq_wcAux (s : List Char) : specMaximalRuns s = wcAux true s := by
  have h := startFromAt_count s true
  rw [← h]
  unfold specMaximalRuns
  congr 1
  apply List.filter_congr
  intro i _
  rcases i with _ | k <;> simp [wordStartAt, startFromAt]

/-- C2: the word count equals the number of maximal runs of non-whitespace
characters, and it is invariant under inserting extra whitespace between
existing words (any position not strictly inside a word) and under leading
or trailing whitespace padding. -/
theorem C2_word_count :
    (∀ s : List Char, wordCount s = specMaximalRuns s) ∧
    (∀ s w : List Char, (∀ c ∈ w, rustIsWhitespace c = true) →
      wordCount (w ++ s) = wordCount s ∧ wordCount (s ++ w) = wordCount s) ∧
    (∀ a w b : List Char, (∀ c ∈ w, rustIsWhitespace c = true) →
      ¬(endsNonWs a = true ∧ startsNonWs b = true) →
      wordCount (a ++ (w ++ b)) = wordCount (a ++ b)) := by
  have hins : ∀ a w b : List Char, (∀ c ∈ w, rustIsWhitespace c = true) →
      ¬(endsNonWs a = true ∧ startsNonWs b = true) →
      wordCount (a ++ (w ++ b)) = wordCount (a ++ b) := by
    intro a w b hw hcond
    rcases w with _ | ⟨wc, w'⟩
    · rfl
    · rw [wordCount_eq_wcAux, wordCount_eq_wcAux, wcAux_append, wcAux_append,
        wcAux_append, wcAux_allWs hw, wsState_allWs (by simp) hw]
      rcases hstate : wsState true a with _ | _
      · -- the word before the insertion point ends in non-whitespace
        have hends : endsNonWs a = true := by
          rcases hlast : a.getLast? with _ | d
          · have ha : a = [] := by simpa using hlast
            rw [ha, wsState_nil] at hstate
            exact absurd hstate (by simp)
          · have := wsState_getLast_some hlast true
            rw [this] at hstate
            simp [endsNonWs, hlast, hstate]
        have hstart : startsNonWs b = false := by
          rcases hb : startsNonWs b with _ | _
          · rfl
          · exact absurd ⟨hends, hb⟩ hcond
        rw [wcAux_state_irrel hstart true false]
        omega
      · omega
  refine ⟨?_, ?_, hins⟩
  · intro s
    rw [wordCount_eq_wcAux, specMaximalRuns_eq_wcAux]
  · intro s w hw
    constructor
    · have h := hins [] w s hw (by simp [endsNonWs])
      simpa using h
    · have h := hins s w [] hw (by simp [startsNonWs])
      simpa using h

/-- Witness for C2 at concrete inputs: inserting a space at an existing
word boundary of "a b" does not change the word count. -/
theorem C2_word_count_witness :
    wordCount ("a ".data ++ (" ".data ++ "b".data)) = wordCount ("a ".data ++ "b".data) :=
  C2_word_count.2.2 "a ".data " ".data "b".data (by decide) (by decide)

lemma one_le_utf8CharSize (c : Char) : 1 ≤ utf8CharSize c := by
  unfold utf8CharSize
  by_cases h1 : c.toNat < 0x80 <;> by_cases h2 : c.toNat < 0x800 <;>
    by_cases h3 : c.toNat < 0x10000 <;> simp [h1, h2, h3]

lemma utf8CharSize_eq_one_iff (c : Char) : utf8CharSize c = 1 ↔ isAsciiChar c = true := by
  unfold utf8CharSize isAsciiChar
  by_cases h1 : c.toNat < 0x80 <;> by_cases h2 : c.toNat < 0x800 <;>
    by_cases h3 : c.toNat < 0x10000 <;> simp [h1, h2, h3]

/-- C3: the UTF-8 byte count is at least the character (Unicode scalar
value) count, with equality exactly when every character is ASCII. -/
theorem C3_bytes_ge_chars (s : List Char) :
    s.length ≤ utf8Len s ∧ (utf8Len s = s.length ↔ ∀ c ∈ s, isAsciiChar c = true) := by
  induction s with
  | nil => simp [utf8Len]
  | cons c cs ih =>
    have hc1 := one_le_utf8CharSize c
    have hlen : utf8Len (c :: cs) = utf8CharSize c + utf8Len cs := by
      simp [utf8Len]
    constructor
    · rw [hlen, List.length_cons]
      omega
    · rw [hlen, List.length_cons]
      constructor
      · intro h
        have hsz : utf8CharSize c = 1 ∧ utf8Len cs = cs.length := by
          have := ih.1
          omega
        intro d hd
        rcases List.mem_cons.mp hd with rfl | hd'
        · exact (utf8CharSize_eq_one_iff d).mp hsz.1
        · exact (ih.2.mp hsz.2) d hd'
      · intro h
        have hc : utf8CharSize c = 1 := (utf8CharSize_eq_one_iff c).mpr (h c (by simp))
        have hcs : utf8Len cs = cs.length := ih.2.mpr (fun d hd => h d (by simp [hd]))
        omega

/-- Witness for C3 at a concrete input: "ab" is pure ASCII, so its byte
count equals its character count. -/
theorem C3_bytes_ge_chars_witness : utf8Len "ab".data = ("ab".data).length :=
  (C3_bytes_ge_chars "ab".data).2.mpr (by decide)

/-- The parsed configuration of `Args::parse` in src/main.rs. -/
structure Args where
  files : List (List Char)
  bytes : Bool
  chars : Bool
  lines : Bool
  words : Bool
  deriving DecidableEq, Repr

/-- Process-terminating events of `Args::parse`: exit 0 on `--help`,
exit 1 on an unrecognized long option or an invalid short-option
character, and the panic of unwrapping `strip_prefix('-')` on a token
without a leading dash. -/
inductive ParseExit where
  | help : ParseExit
  | unrecognized : List Char → ParseExit
  | invalid : Char → ParseExit
  | panicked : ParseExit
  deriving DecidableEq, Repr

/-- Rust's `arg.starts_with('-')` on the token. -/
def startsWithDash (arg : List Char) : Bool := arg.head? == some '-'

/-- Rust's `arg.starts_with("--")` on the token. -/
def startsWithDashDash (arg : List Char) : Bool :=
  arg.head? == some '-' && arg.tail.head? == some '-'

/-- The file-operand test of the partition in `Args::parse`:
`arg.len() > 1 && !arg.starts_with('-') && !arg.starts_with("--")`
(`len` is the UTF-8 byte length). -/
def isFileOperand (arg : List Char) : Bool :=
  decide (utf8Len arg > 1) && !startsWithDash arg && !startsWithDashDash arg

/-- Rust's `option.strip_prefix('-')`. -/
def stripDash (arg : List Char) : Option (List Char) :=
  match arg with
  | c :: rest => if c = '-' then some rest else none
  | [] => none

/-- One character of a short-option cluster: `c`→bytes, `m`→chars,
`l`→lines, `w`→words, anything else is an invalid-option error. -/
def applyShort (a : Args) (c : Char) : Except ParseExit Args :=
  if c = 'c' then .ok { a with bytes := true }
  else if c = 'm' then .ok { a with chars := true }
  else if c = 'l' then .ok { a with lines := true }
  else if c = 'w' then .ok { a with words := true }
  else .error (.invalid c)

/-- Processing of one option token in `Args::parse`: a `--` token is
matched against the long-option vocabulary; otherwise the leading `-` is
stripped (unwrap panics when there is none) and the remaining characters
are interpreted as short flags. -/
def applyOption (a : Args) (opt : List Char) : Except ParseExit Args :=
  if startsWithDashDash opt then
    if opt = "--bytes".data then .ok { a with bytes := true }
    else if opt = "--chars".data then .ok { a with chars := true }
    else if opt = "--lines".data then .ok { a with lines := true }
    else if opt = "--words".data then .ok { a with words := true }
    else if opt = "--help".data then .error .help
    else .error (.unrecognized opt)
  else
    match stripDash opt with
    | none => .error .panicked
    | some rest => rest.foldlM applyShort a

/-- `Args::parse` of src/main.rs: partition the tokens into file operands
and option tokens; with no option tokens the default flags are bytes,
lines and words; otherwise the option tokens are processed in order from
all-false flags, stopping at the first process-terminating event. -/
def Args.parse (argv : List (List Char)) : Except ParseExit Args :=
  let pr := argv.partition isFileOperand
  if pr.2.isEmpty then
    .ok { files := pr.1, bytes := true, chars := false, lines := true, words := true }
  else
    pr.2.foldlM applyOption
      { files := pr.1, bytes := false, chars := false, lines := false, words := false }

/-- C4: with an empty option-token list the parsed request has exactly
bytes, lines and words enabled and chars disabled; with a nonempty
option-token list this default branch is not taken — the flags are instead
the fold of the option tokens over all-false flags. -/
theorem C4_default_metrics (argv : List (List Char)) :
    ((argv.partition isFileOperand).2 = [] →
      Args.parse argv =
        .ok ⟨(argv.partition isFileOperand).1, true, false, true, true⟩) ∧
    ((argv.partition isFileOperand).2 ≠ [] →
      Args.parse argv = (argv.partition isFileOperand).2.foldlM applyOption
        ⟨(argv.partition isFileOperand).1, false, false, false, false⟩) := by
  constructor <;> intro h <;> unfold Args.parse
  · rw [if_pos (by simpa [List.isEmpty_iff] using h)]
  · rw [if_neg (by simpa [List.isEmpty_iff] using h)]

/-- Witness for C4 at the concrete argument list ["ab"]: no option tokens,
so the default metric set bytes+lines+words is used. -/
theorem C4_default_metrics_witness :
    Args.parse ["ab".data] = .ok ⟨["ab".data], true, false, true, true⟩ :=
  (C4_default_metrics ["ab".data]).1 (by decide)

lemma exceptBind_error {ε σ β : Type} (e : ε) (g : σ → Except ε β) :
    (Except.error e >>= g) = Except.error e := rfl

lemma exceptBind_ok {ε σ β : Type} (s : σ) (g : σ → Except ε β) :
    (Except.ok s >>= g) = g s := rfl

lemma exceptFoldlM_nil {ε σ α : Type} (f : σ → α → Except ε σ) (init : σ) :
    List.foldlM f init ([] : List α) = .ok init := rfl

lemma exceptFoldlM_cons {ε σ α : Type} (f : σ → α → Except ε σ) (init : σ)
    (a : α) (l : List α) :
    List.foldlM f init (a :: l) = (f init a >>= fun s => List.foldlM f s l) := rfl

lemma exceptFoldlM_append {ε σ α : Type} (f : σ → α → Except ε σ) (l1 l2 : List α) :
    ∀ init : σ, List.foldlM f init (l1 ++ l2) =
      match List.foldlM f init l1 with
      | .error e => .error e
      | .ok m => List.foldlM f m l2 := by
  induction l1 with
  | nil => intro init; rfl
  | cons a l1' ih =>
    intro init
    rw [List.cons_append, exceptFoldlM_cons, exceptFoldlM_cons]
    cases h : f init a with
    | error e => rw [exceptBind_error, exceptBind_error]
    | ok m =>
      rw [exceptBind_ok, exceptBind_ok, ih m]

lemma applyOption_dash (a : Args) : applyOption a "-".data = .ok a := rfl

/-- Counterexample to C9 as stated: adding a bare "-" to an argument list
that has no other option token changes the parse result, because the
option-token list is no longer empty and the default metric set is not
applied. -/
theorem C9_counterexample :
    Args.parse ["ab".data, "-".data] ≠ Args.parse ["ab".data] := by
  have h1 : Args.parse ["ab".data, "-".data] =
      .ok ⟨["ab".data], false, false, false, false⟩ := rfl
  have h2 : Args.parse ["ab".data] = .ok ⟨["ab".data], true, false, true, true⟩ := rfl
  rw [h1, h2]
  intro h
  have h3 := Except.ok.inj h
  simp at h3

/-- C9 (amended): a bare "-" is not a file operand and not a valid option
token; processing it strips the dash to an empty character sequence, so it
enables no flags and raises no error.  Adding it to an argument list leaves
the parsed request unchanged whenever at least one other option token is
present; when it is the only option token it instead suppresses the default
metric set, yielding a request with no metrics enabled. -/
theorem C9_bare_dash (a : Args) (l1 l2 : List (List Char)) :
    isFileOperand "-".data = false ∧
    applyOption a "-".data = .ok a ∧
    (((l1 ++ l2).partition isFileOperand).2 ≠ [] →
      Args.parse (l1 ++ "-".data :: l2) = Args.parse (l1 ++ l2)) ∧
    (((l1 ++ l2).partition isFileOperand).2 = [] →
      Args.parse (l1 ++ "-".data :: l2) =
        .ok ⟨((l1 ++ l2).partition isFileOperand).1, false, false, false, false⟩) := by
  have hfop : isFileOperand "-".data = false := rfl
  have hparse : ∀ l : List (List Char), Args.parse l =
      (if (l.filter (fun x => !isFileOperand x)).isEmpty then
        .ok ⟨l.filter isFileOperand, true, false, true, true⟩
      else (l.filter (fun x => !isFileOperand x)).foldlM applyOption
        ⟨l.filter isFileOperand, false, false, false, false⟩) := by
    intro l
    simp only [Args.parse, List.partition_eq_filter_filter, Function.comp_def]
  have hfilter_mid : (l1 ++ "-".data :: l2).filter isFileOperand =
      (l1 ++ l2).filter isFileOperand := by
    simp [List.filter_append, List.filter_cons, hfop]
  have hofilter_mid : (l1 ++ "-".data :: l2).filter (fun x => !isFileOperand x) =
      l1.filter (fun x => !isFileOperand x) ++
        "-".data :: l2.filter (fun x => !isFileOperand x) := by
    simp [List.filter_append, List.filter_cons, hfop]
  have hsplit : (l1 ++ l2).filter (fun x => !isFileOperand x) =
      l1.filter (fun x => !isFileOperand x) ++ l2.filter (fun x => !isFileOperand x) := by
    simp [List.filter_append]
  refine ⟨hfop, applyOption_dash a, ?_, ?_⟩
  · intro hne
    have hne' : (l1 ++ l2).filter (fun x => !isFileOperand x) ≠ [] := by
      rw [List.partition_eq_filter_filter] at hne
      simpa [Function.comp_def] using hne
    rw [hparse, hparse, hfilter_mid, hofilter_mid]
    rw [if_neg (by simp), if_neg (by simpa [List.isEmpty_iff] using hne')]
    rw [hsplit]
    rw [exceptFoldlM_append, exceptFoldlM_append]
    cases h : List.foldlM applyOption
        ⟨(l1 ++ l2).filter isFileOperand, false, false, false, false⟩
        (l1.filter (fun x => !isFileOperand x)) with
    | error e => rfl
    | ok m =>
      show List.foldlM applyOption m ("-".data :: l2.filter (fun x => !isFileOperand x)) = _
      rw [exceptFoldlM_cons, applyOption_dash, exceptBind_ok]
  · intro hemp
    have hemp' : (l1 ++ l2).filter (fun x => !isFileOperand x) = [] := by
      rw [List.partition_eq_filter_filter] at hemp
      simpa [Function.comp_def] using hemp
    rw [hsplit] at hemp'
    have h1 := (List.append_eq_nil.mp hemp').1
    have h2 := (List.append_eq_nil.mp hemp').2
    rw [hparse, hfilter_mid, hofilter_mid, h1, h2]
    rw [if_neg (by simp), List.nil_append, exceptFoldlM_cons, applyOption_dash,
      exceptBind_ok, exceptFoldlM_nil, List.partition_eq_filter_filter]

/-- Witness for C9 (amended) at a concrete input: for the argument list
["ab"] with no other option token, adding a bare "-" yields a request with
no metrics enabled instead of the default. -/
theorem C9_bare_dash_witness :
    Args.parse ["ab".data, "-".data] =
      .ok ⟨["ab".data], false, false, false, false⟩ := by
  have h := (C9_bare_dash ⟨[], false, false, false, false⟩ ["ab".data] []).2.2.2 (by decide)
  exact h

lemma startsWithDashDash_false {t : List Char} (hd : t.head? ≠ some '-') :
    startsWithDashDash t = false := by
  unfold startsWithDashDash
  have h : (t.head? == some '-') = false := by
    simpa using hd
  rw [h]
  rfl

lemma stripDash_none {t : List Char} (hd : t.head? ≠ some '-') : stripDash t = none := by
  rcases t with _ | ⟨c, rest⟩
  · rfl
  · have hc : c ≠ '-' := by simpa using hd
    simp [stripDash, hc]

/-- C10: the option parser is not total: a token whose byte length is at
most 1 and that does not begin with "-" (a single-byte file name such as
"x", or the empty string) is not classified as a file operand, so it is
processed as an option token, and stripping the absent "-" makes the
unwrap panic instead of treating it as a file operand or a parse error. -/
theorem C10_short_token_panics (t : List Char) (hlen : utf8Len t ≤ 1)
    (hd : t.head? ≠ some '-') :
    isFileOperand t = false ∧ Args.parse [t] = .error .panicked := by
  have hfop : isFileOperand t = false := by
    unfold isFileOperand
    have h : decide (utf8Len t > 1) = false := by
      simp
      omega
    rw [h]
    rfl
  refine ⟨hfop, ?_⟩
  have happ : ∀ a : Args, applyOption a t = .error .panicked := by
    intro a
    unfold applyOption
    rw [startsWithDashDash_false hd, if_neg (by simp), stripDash_none hd]
  have hpr : ([t].partition isFileOperand) = ([], [t]) := by
    rw [List.partition_eq_filter_filter]
    simp [hfop]
  simp only [Args.parse, hpr]
  rw [if_neg (by simp), exceptFoldlM_cons, happ]
  rfl

/-- Witness for C10 at the concrete token "x": it is not a file operand and
parsing panics on it. -/
theorem C10_short_token_panics_witness :
    isFileOperand ['x'] = false ∧ Args.parse [['x']] = .error .panicked :=
  C10_short_token_panics ['x'] (by decide) (by decide)

/-- Per-source counting record of src/main.rs (`struct WordCount`). -/
structure WordCount where
  filename : List Char
  bytes : Nat
  chars : Nat
  lines : Nat
  words : Nat
  deriving DecidableEq, Repr

/-- `WordCount::parse` of src/main.rs: each metric is computed only when
its flag is enabled, and disabled metrics are stored as zero. -/
def WordCount.parse (filename : List Char) (input : List Char) (args : Args) : WordCount :=
  { filename := filename
    bytes := if args.bytes then utf8Len input else 0
    chars := if args.chars then input.length else 0
    lines := if args.lines then lineCount input else 0
    words := if args.words then wordCount input else 0 }

/-- Fuel-indexed construction of the decimal digit string of a natural
number (most significant digit first), with enough fuel it equals Rust's
`usize::to_string`. -/
def decimalDigitsCore : Nat → Nat → List Char
  | 0, _ => []
  | fuel + 1, n =>
    if n < 10 then [Nat.digitChar n]
    else decimalDigitsCore fuel (n / 10) ++ [Nat.digitChar (n % 10)]

/-- Decimal digit string of a natural number, i.e. `to_string` on a count. -/
def decimalDigits (n : Nat) : List Char := decimalDigitsCore (n + 1) n

/-- Length of the decimal representation: `max.to_string().len()` in
`print_output`. -/
def digitLen (n : Nat) : Nat := (decimalDigits n).length

/-- Right alignment of Rust's format specifier `{:>offset$}`: pad on the
left with spaces up to the given width. -/
def leftPad (w : Nat) (s : List Char) : List Char :=
  List.replicate (w - s.length) ' ' ++ s

/-- The columns printed by `WordCount::print`, in the fixed order lines,
words, chars, bytes, each right-aligned to the shared offset; disabled
metrics produce no column. -/
def WordCount.printCols (self : WordCount) (offset : Nat) (args : Args) :
    List (List Char) :=
  (if args.lines then [leftPad offset (decimalDigits self.lines)] else []) ++
  (if args.words then [leftPad offset (decimalDigits self.words)] else []) ++
  (if args.chars then [leftPad offset (decimalDigits self.chars)] else []) ++
  (if args.bytes then [leftPad offset (decimalDigits self.bytes)] else [])

/-- One output row of `WordCount::print`: every enabled column followed by
a single space, then the file name. -/
def WordCount.printRow (self : WordCount) (offset : Nat) (args : Args) : List Char :=
  ((self.printCols offset args).map (fun col => col ++ [' '])).flatten ++ self.filename

/-- One step of the accumulation in `total`: a successful record adds its
four counts to the four accumulators, a failure record adds nothing. -/
def totalStep (acc : Nat × Nat × Nat × Nat) (r : Except (List Char) WordCount) :
    Nat × Nat × Nat × Nat :=
  match r with
  | .ok c => (acc.1 + c.bytes, acc.2.1 + c.chars, acc.2.2.1 + c.lines, acc.2.2.2 + c.words)
  | .error _ => acc

/-- The `total` function of src/main.rs: fold over the results, adding the
four counts of every successful record (failures contribute nothing), with
the name "total". -/
def total (results : List (Except (List Char) WordCount)) : WordCount :=
  let acc := results.foldl totalStep (0, 0, 0, 0)
  { filename := "total".data
    bytes := acc.1
    chars := acc.2.1
    lines := acc.2.2.1
    words := acc.2.2.2 }

/-- Successful component of one Count Result, used to express sums over
the successful results only. -/
def okResult (r : Except (List Char) WordCount) : Option WordCount :=
  match r with
  | .ok w => some w
  | .error _ => none

/-- The maximum of the four fields of a record, as computed in
`print_output`: `total.bytes.max(chars).max(lines).max(words)`. -/
def maxField (t : WordCount) : Nat :=
  ((t.bytes.max t.chars).max t.lines).max t.words

/-- The shared column width of `print_output`: the decimal length of the
largest of the four totals, regardless of which metrics are selected. -/
def outputOffset (results : List (Except (List Char) WordCount)) : Nat :=
  digitLen (maxField (total results))

/-- One rendered row of `print_output`: a success prints its columns and
name, a failure prints only its error message. -/
def renderResult (offset : Nat) (args : Args) :
    Except (List Char) WordCount → List Char
  | .ok wc => wc.printRow offset args
  | .error e => e

/-- `print_output` of src/main.rs: compute the total and the shared column
width from it, append the total row when more than one result is present,
and render every row; the output is the list of printed lines. -/
def printOutput (results : List (Except (List Char) WordCount)) (args : Args) :
    List (List Char) :=
  let t := total results
  let offset := digitLen (maxField t)
  let rows := if results.length > 1 then results ++ [Except.ok t] else results
  rows.map (renderResult offset args)

/-- Outcome of opening and fully reading one named file, the behaviour of
the file system for the `count` function: the open can fail, the read
after a successful open can fail, or the content is returned. -/
inductive FileAccess where
  | openErr : FileAccess
  | readErr : FileAccess
  | content : List Char → FileAccess
  deriving DecidableEq, Repr

/-- The per-file loop of `count` in src/main.rs: an open failure pushes a
failure record with the fixed message and continues with the next file; a
read failure after a successful open is the `expect` panic, aborting the
whole run; a successful read pushes the parsed counts. -/
def countFilesLoop (fs : List Char → FileAccess) (args : Args) :
    List (List Char) → Except Unit (List (Except (List Char) WordCount))
  | [] => .ok []
  | f :: rest =>
    match fs f with
    | .openErr =>
      match countFilesLoop fs args rest with
      | .ok rs => .ok (.error ("wc: ".data ++ f ++ ": No such file or directory".data) :: rs)
      | .error e => .error e
    | .readErr => .error ()
    | .content data =>
      match countFilesLoop fs args rest with
      | .ok rs => .ok (.ok (WordCount.parse f data args) :: rs)
      | .error e => .error e

/-- `count` of src/main.rs: with no files and a non-interactive standard
input, the whole standard input is one source with an empty name;
otherwise the named files are processed in order. -/
def count (fs : List Char → FileAccess) (stdinData : List Char)
    (stdinIsTerminal : Bool) (args : Args) :
    Except Unit (List (Except (List Char) WordCount)) :=
  if args.files.isEmpty && !stdinIsTerminal then
    .ok [.ok (WordCount.parse [] stdinData args)]
  else
    countFilesLoop fs args args.files

/-- Process-aborting outcomes of `main`: a parse-time exit, or the panic
on a failed read of an opened file. -/
inductive MainFailure where
  | parseExit : ParseExit → MainFailure
  | readPanic : MainFailure
  deriving DecidableEq, Repr

/-- `main` of src/main.rs: parse the arguments, count every source, print
the results; an aborted run produces no output. -/
def wcMain (fs : List Char → FileAccess) (stdinData : List Char)
    (stdinIsTerminal : Bool) (argv : List (List Char)) :
    Except MainFailure (List (List Char)) :=
  match Args.parse argv with
  | .error e => .error (.parseExit e)
  | .ok args =>
    match count fs stdinData stdinIsTerminal args with
    | .error _ => .error .readPanic
    | .ok results => .ok (printOutput results args)

/-- C6: when no file of the batch hits a read failure, the loop produces
one result per file in source order: every file whose open fails yields a
failure record with exactly the message "wc: <name>: No such file or
directory" and the loop continues, so successes and failures interleave in
source order and a failed open never aborts the batch. -/
theorem C6_open_failure_recovered (fs : List Char → FileAccess) (args : Args)
    (files : List (List Char)) (h : ∀ f ∈ files, fs f ≠ .readErr) :
    countFilesLoop fs args files = .ok (files.map fun f =>
      match fs f with
      | .openErr => .error ("wc: ".data ++ f ++ ": No such file or directory".data)
      | .content data => .ok (WordCount.parse f data args)
      | .readErr => .error []) := by
  induction files with
  | nil => rfl
  | cons f rest ih =>
    have hf := h f (by simp)
    have hrest := ih (fun g hg => h g (by simp [hg]))
    cases hfs : fs f with
    | openErr =>
      simp only [countFilesLoop, hfs, hrest, List.map_cons]
    | readErr => exact absurd hfs hf
    | content data =>
      simp only [countFilesLoop, hfs, hrest, List.map_cons]

/-- Witness for C6 at a concrete batch: file "a" fails to open, file "b"
reads as "x"; the loop yields the failure record for "a" followed by the
counts of "b". -/
theorem C6_open_failure_recovered_witness :
    countFilesLoop (fun f => if f = "a".data then .openErr else .content "x".data)
      ⟨[], true, false, true, true⟩ ["a".data, "b".data] =
    .ok [.error "wc: a: No such file or directory".data,
      .ok ⟨"b".data, 1, 0, 1, 1⟩] := by
  have h := C6_open_failure_recovered
    (fun f => if f = "a".data then .openErr else .content "x".data)
    ⟨[], true, false, true, true⟩ ["a".data, "b".data] (by decide)
  exact h

lemma countFilesLoop_readErr (fs : List Char → FileAccess) (args : Args)
    (files : List (List Char)) (f : List Char) (hf : f ∈ files)
    (hread : fs f = .readErr) : countFilesLoop fs args files = .error () := by
  induction files with
  | nil => simp at hf
  | cons g rest ih =>
    rcases List.mem_cons.mp hf with rfl | hf'
    · simp only [countFilesLoop, hread]
    · cases hfs : fs g with
      | openErr => simp only [countFilesLoop, hfs, ih hf']
      | readErr => simp only [countFilesLoop, hfs]
      | content data => simp only [countFilesLoop, hfs, ih hf']

/-- C7: a read failure on a file that was successfully opened aborts the
whole run: the counting pass yields no result list and `main` produces no
output for any source, neither before nor after the failing file. -/
theorem C7_read_failure_fatal (fs : List Char → FileAccess) (stdinData : List Char)
    (stdinIsTerminal : Bool) (argv : List (List Char)) (args : Args) (f : List Char)
    (hparse : Args.parse argv = .ok args) (hf : f ∈ args.files)
    (hread : fs f = .readErr) :
    wcMain fs stdinData stdinIsTerminal argv = .error .readPanic := by
  have hne : args.files ≠ [] := List.ne_nil_of_mem hf
  have hcount : count fs stdinData stdinIsTerminal args = .error () := by
    unfold count
    rw [if_neg (by simp [List.isEmpty_iff, hne])]
    exact countFilesLoop_readErr fs args args.files f hf hread
  unfold wcMain
  rw [hparse]
  show (match count fs stdinData stdinIsTerminal args with
    | Except.error _ => Except.error MainFailure.readPanic
    | Except.ok results => Except.ok (printOutput results args)) =
      Except.error MainFailure.readPanic
  rw [hcount]

/-- Witness for C7 at a concrete run: the single file "ab" opens but its
read fails, so the whole run aborts with no output. -/
theorem C7_read_failure_fatal_witness :
    wcMain (fun _ => .readErr) [] false ["ab".data] = .error .readPanic :=
  C7_read_failure_fatal (fun _ => .readErr) [] false ["ab".data]
    ⟨["ab".data], true, false, true, true⟩ "ab".data rfl (by decide) rfl

lemma totalStep_foldl (results : List (Except (List Char) WordCount)) :
    ∀ acc : Nat × Nat × Nat × Nat,
      results.foldl totalStep acc =
        (acc.1 + ((results.filterMap okResult).map (fun w => w.bytes)).sum,
         acc.2.1 + ((results.filterMap okResult).map (fun w => w.chars)).sum,
         acc.2.2.1 + ((results.filterMap okResult).map (fun w => w.lines)).sum,
         acc.2.2.2 + ((results.filterMap okResult).map (fun w => w.words)).sum) := by
  induction results with
  | nil => intro acc; simp [okResult]
  | cons r rest ih =>
    intro acc
    cases r with
    | ok c =>
      simp [List.foldl_cons, totalStep, okResult, List.filterMap_cons, ih, Nat.add_assoc]
    | error e =>
      simp [List.foldl_cons, totalStep, okResult, List.filterMap_cons, ih]

lemma total_bytes (results : List (Except (List Char) WordCount)) :
    (total results).bytes = ((results.filterMap okResult).map (fun w => w.bytes)).sum := by
  simp [total, totalStep_foldl]

lemma total_chars (results : List (Except (List Char) WordCount)) :
    (total results).chars = ((results.filterMap okResult).map (fun w => w.chars)).sum := by
  simp [total, totalStep_foldl]

lemma total_lines (results : List (Except (List Char) WordCount)) :
    (total results).lines = ((results.filterMap okResult).map (fun w => w.lines)).sum := by
  simp [total, totalStep_foldl]

lemma total_words (results : List (Except (List Char) WordCount)) :
    (total results).words = ((results.filterMap okResult).map (fun w => w.words)).sum := by
  simp [total, totalStep_foldl]

/-- C5: the synthesized total is a record named "total" whose four fields
are the element-wise sums of the fields of the successful results only,
and the rendered output appends the total row exactly when more than one
result is present. -/
theorem C5_total_row (results : List (Except (List Char) WordCount)) (args : Args) :
    (total results).filename = "total".data ∧
    (total results).bytes = ((results.filterMap okResult).map (fun w => w.bytes)).sum ∧
    (total results).chars = ((results.filterMap okResult).map (fun w => w.chars)).sum ∧
    (total results).lines = ((results.filterMap okResult).map (fun w => w.lines)).sum ∧
    (total results).words = ((results.filterMap okResult).map (fun w => w.words)).sum ∧
    printOutput results args =
      results.map (renderResult (outputOffset results) args) ++
        (if results.length > 1 then
          [renderResult (outputOffset results) args (.ok (total results))] else []) := by
  refine ⟨rfl, total_bytes results, total_chars results, total_lines results,
    total_words results, ?_⟩
  simp only [printOutput, outputOffset]
  by_cases h : results.length > 1
  · simp only [if_pos h, List.map_append, List.map_cons, List.map_nil]
  · simp only [if_neg h, List.append_nil]

lemma decimalDigitsCore_irrel : ∀ f1 f2 n : Nat, n < f1 → n < f2 →
    decimalDigitsCore f1 n = decimalDigitsCore f2 n := by
  intro f1
  induction f1 with
  | zero => intro f2 n h1 h2; omega
  | succ f ih =>
    intro f2 n h1 h2
    rcases f2 with _ | g
    · omega
    · by_cases h10 : n < 10
      · simp [decimalDigitsCore, h10]
      · have hdn : n / 10 < n := Nat.div_lt_self (by omega) (by omega)
        have e1 : decimalDigitsCore (f + 1) n =
            decimalDigitsCore f (n / 10) ++ [Nat.digitChar (n % 10)] := by
          simp [decimalDigitsCore, h10]
        have e2 : decimalDigitsCore (g + 1) n =
            decimalDigitsCore g (n / 10) ++ [Nat.digitChar (n % 10)] := by
          simp [decimalDigitsCore, h10]
        rw [e1, e2, ih g (n / 10) (by omega) (by omega)]

lemma decimalDigits_small {n : Nat} (h : n < 10) :
    decimalDigits n = [Nat.digitChar n] := by
  simp [decimalDigits, decimalDigitsCore, h]

lemma decimalDigits_rec {n : Nat} (h : ¬n < 10) :
    decimalDigits n = decimalDigits (n / 10) ++ [Nat.digitChar (n % 10)] := by
  have hdn : n / 10 < n := Nat.div_lt_self (by omega) (by omega)
  show decimalDigitsCore (n + 1) n = _
  have e1 : decimalDigitsCore (n + 1) n =
      decimalDigitsCore n (n / 10) ++ [Nat.digitChar (n % 10)] := by
    simp [decimalDigitsCore, h]
  rw [e1, decimalDigitsCore_irrel n (n / 10 + 1) (n / 10) (by omega) (by omega)]
  rfl

lemma digitLen_eq (n : Nat) :
    digitLen n = if n < 10 then 1 else digitLen (n / 10) + 1 := by
  by_cases h : n < 10
  · simp [digitLen, decimalDigits_small h, h]
  · simp [digitLen, decimalDigits_rec h, h]

lemma digitLen_pos (n : Nat) : 1 ≤ digitLen n := by
  rw [digitLen_eq]
  by_cases h : n < 10 <;> simp [h]

lemma digitLen_mono : ∀ n m : Nat, m ≤ n → digitLen m ≤ digitLen n := by
  intro n
  induction n using Nat.strong_induction_on with
  | _ n ih =>
    intro m hmn
    by_cases hm : m < 10
    · rw [digitLen_eq m, if_pos hm]
      exact digitLen_pos n
    · have hn : ¬n < 10 := by omega
      have h1 : digitLen m = digitLen (m / 10) + 1 := by rw [digitLen_eq, if_neg hm]
      have h2 : digitLen n = digitLen (n / 10) + 1 := by rw [digitLen_eq, if_neg hn]
      rw [h1, h2]
      have hdiv : m / 10 ≤ n / 10 := Nat.div_le_div_right hmn
      have := ih (n / 10) (Nat.div_lt_self (by omega) (by omega)) (m / 10) hdiv
      omega

lemma leftPad_length (w : Nat) (s : List Char) (h : s.length ≤ w) :
    (leftPad w s).length = w := by
  simp only [leftPad, List.length_append, List.length_replicate]
  omega

lemma mem_if_singleton {α : Type} (b : Bool) (x a : α) :
    a ∈ (if b then [x] else ([] : List α)) ↔ b = true ∧ a = x := by
  cases b <;> simp

lemma printCols_length (wc : WordCount) (offset : Nat) (args : Args)
    (hl : digitLen wc.lines ≤ offset) (hw : digitLen wc.words ≤ offset)
    (hc : digitLen wc.chars ≤ offset) (hb : digitLen wc.bytes ≤ offset) :
    ∀ col ∈ wc.printCols offset args, col.length = offset := by
  intro col hcol
  unfold WordCount.printCols at hcol
  simp only [List.mem_append, mem_if_singleton] at hcol
  rcases hcol with ((⟨_, rfl⟩ | ⟨_, rfl⟩) | ⟨_, rfl⟩) | ⟨_, rfl⟩
  · exact leftPad_length _ _ hl
  · exact leftPad_length _ _ hw
  · exact leftPad_length _ _ hc
  · exact leftPad_length _ _ hb

lemma mem_le_sum {l : List Nat} {a : Nat} (h : a ∈ l) : a ≤ l.sum := by
  induction l with
  | nil => simp at h
  | cons b l' ih =>
    rcases List.mem_cons.mp h with rfl | h'
    · simp [List.sum_cons]
    · have := ih h'
      simp only [List.sum_cons]
      omega

lemma ok_mem_le_total (results : List (Except (List Char) WordCount))
    (wc : WordCount) (h : Except.ok wc ∈ results) :
    wc.bytes ≤ (total results).bytes ∧ wc.chars ≤ (total results).chars ∧
    wc.lines ≤ (total results).lines ∧ wc.words ≤ (total results).words := by
  have hmem : wc ∈ results.filterMap okResult := by
    rw [List.mem_filterMap]
    exact ⟨Except.ok wc, h, rfl⟩
  refine ⟨?_, ?_, ?_, ?_⟩
  · rw [total_bytes]
    exact mem_le_sum (List.mem_map_of_mem _ hmem)
  · rw [total_chars]
    exact mem_le_sum (List.mem_map_of_mem _ hmem)
  · rw [total_lines]
    exact mem_le_sum (List.mem_map_of_mem _ hmem)
  · rw [total_words]
    exact mem_le_sum (List.mem_map_of_mem _ hmem)

lemma le_maxField (t : WordCount) :
    t.bytes ≤ maxField t ∧ t.chars ≤ maxField t ∧
    t.lines ≤ maxField t ∧ t.words ≤ maxField t := by
  unfold maxField
  refine ⟨?_, ?_, ?_, ?_⟩
  · exact le_trans (le_trans (Nat.le_max_left _ _) (Nat.le_max_left _ _)) (Nat.le_max_left _ _)
  · exact le_trans (le_trans (Nat.le_max_right _ _) (Nat.le_max_left _ _)) (Nat.le_max_left _ _)
  · exact le_trans (Nat.le_max_right _ _) (Nat.le_max_left _ _)
  · exact Nat.le_max_right _ _

/-- C8: the shared column width is the decimal-digit length of the largest
of the four fields of the total record, regardless of which metrics are
selected, and every printed column of every row (including the appended
total row) is right-aligned to exactly that width. -/
theorem C8_column_width (results : List (Except (List Char) WordCount)) (args : Args) :
    printOutput results args =
      (if results.length > 1 then results ++ [Except.ok (total results)] else results).map
        (renderResult (outputOffset results) args) ∧
    (∀ r ∈ (if results.length > 1 then results ++ [Except.ok (total results)] else results),
      ∀ wc : WordCount, r = Except.ok wc →
        ∀ col ∈ wc.printCols (outputOffset results) args,
          col.length = outputOffset results) := by
  constructor
  · rfl
  · intro r hr wc hwc col hcol
    subst hwc
    have key : wc.bytes ≤ maxField (total results) ∧
        wc.chars ≤ maxField (total results) ∧
        wc.lines ≤ maxField (total results) ∧
        wc.words ≤ maxField (total results) := by
      have hmax := le_maxField (total results)
      have hcases : Except.ok wc ∈ results ∨ wc = total results := by
        by_cases h : results.length > 1
        · rw [if_pos h] at hr
          rcases List.mem_append.mp hr with hr1 | hr2
          · exact Or.inl hr1
          · right
            have heq : (Except.ok wc : Except (List Char) WordCount) =
                Except.ok (total results) := by simpa using hr2
            exact Except.ok.inj heq
        · rw [if_neg h] at hr
          exact Or.inl hr
      rcases hcases with hin | rfl
      · have h4 := ok_mem_le_total results wc hin
        exact ⟨le_trans h4.1 hmax.1, le_trans h4.2.1 hmax.2.1,
          le_trans h4.2.2.1 hmax.2.2.1, le_trans h4.2.2.2 hmax.2.2.2⟩
      · exact hmax
    exact printCols_length wc _ args (digitLen_mono _ _ key.2.2.1)
      (digitLen_mono _ _ key.2.2.2) (digitLen_mono _ _ key.2.1)
      (digitLen_mono _ _ key.1) col hcol

/-- Witness for C8 at a concrete result list: one success with fields
10/0/2/3, so the width is the digit length of 10, namely 2, and the lines
column of the row has length 2. -/
theorem C8_column_width_witness :
    (leftPad (outputOffset [Except.ok ⟨"f".data, 10, 0, 2, 3⟩]) (decimalDigits 2)).length =
      outputOffset [Except.ok ⟨"f".data, 10, 0, 2, 3⟩] :=
  (C8_column_width [Except.ok ⟨"f".data, 10, 0, 2, 3⟩] ⟨[], true, false, true, true⟩).2
    (Except.ok ⟨"f".data, 10, 0, 2, 3⟩) (by decide) ⟨"f".data, 10, 0, 2, 3⟩ rfl
    (leftPad (outputOffset [Except.ok ⟨"f".data, 10, 0, 2, 3⟩]) (decimalDigits 2)) (by decide)
